import Mathlib

/-!
Shallow embedding of the audio mixing engine of `scribble` (`src/scribble/src/audio.rs`).

Modelling conventions:
* `i16` samples are modelled as unbounded `Int`.  Arithmetic on sample values
  (`*out_sample += …`) is modelled as exact integer addition; in a debug build the
  Rust code panics on `i16` overflow rather than wrapping, so every normally
  terminating execution agrees with this model.
* `f64` values (speed factors, fractional sample indices, interpolation weights)
  are modelled as exact rationals `ℚ`; `f64::floor`, `f64::ceil`, `f64::signum`
  and the saturating cast `as i16` are modelled exactly.
* `usize`/`isize` index arithmetic is modelled over `Nat`/`Int`; the wrap-around
  of a signed-to-unsigned cast is modelled with an explicit `% 2^64` where the
  Rust code relies on it, and `usize::MAX` (the result of a failed `checked_sub`)
  is the explicit constant `usizeMax`.
* Functions that can panic on a violated caller contract (the sign assertion of
  `Buf`'s indexing operator) are modelled with `Option`, `none` meaning a panic.
-/

/-- Number of values of `usize` (2 ^ 64 on the 64-bit targets scribble builds for). -/
def usizeSize : Nat := 18446744073709551616

/-- Largest `usize` value, `usize::MAX` = 2 ^ 64 - 1. -/
def usizeMax : Nat := usizeSize - 1

/-- Model of `f64::signum` restricted to the values that occur here: `1` for
nonnegative arguments, `-1` for negative ones.  (`ℚ` has no `-0.0` or `NaN`.) -/
def fsign (q : ℚ) : Int := if 0 ≤ q.num then 1 else -1

/-- Truncation toward zero, the rounding used by Rust's float-to-integer `as` casts. -/
def ratTrunc (q : ℚ) : Int := if 0 ≤ q then ⌊q⌋ else ⌈q⌉

/-- Model of the saturating Rust cast `as i16` from a float: truncate toward zero,
then clamp into `[-32768, 32767]`. -/
def f64AsI16 (q : ℚ) : Int := max (-32768) (min 32767 (ratTrunc q))

/-- Modelled from the spec: the timeline instant type `Time` of the
`scribble_curves` crate (not under `src/`), "an opaque timeline instant type
convertible to a signed sample offset at the engine's fixed sample rate".
Represented as a count of microseconds. -/
abbrev Time : Type := Int

/-- Modelled from the spec: the duration type `Diff` of the `scribble_curves`
crate (not under `src/`), "a duration type likewise convertible" to a signed
sample offset.  Represented as a signed count of microseconds. -/
abbrev Diff : Type := Int

/-- Modelled from the spec: `Time::from_micros`. -/
def Time.from_micros (us : Int) : Time := us

/-- Modelled from the spec: `Diff::from_micros`. -/
def Diff.from_micros (us : Int) : Diff := us

/-- Difference of two instants, as used by `CursorBuffer::new` (`time - snip.start_time`). -/
def Time.sub (t u : Time) : Diff := (t : Int) - (u : Int)

/-- Modelled from the spec: `Diff::as_audio_idx`, conversion of a duration to a
whole number of samples at a given sample rate (microseconds × rate / 10⁶, with
Rust's truncating integer division). -/
def Diff.as_audio_idx (d : Diff) (sample_rate : Nat) : Int :=
  Int.tdiv ((d : Int) * (sample_rate : Int)) 1000000

/-- `pub const SAMPLE_RATE: u32 = 48000`. -/
def SAMPLE_RATE : Nat := 48000

/-- `AudioSnippetData`: an owned buffer of `i16` samples plus a start time. -/
structure AudioSnippetData where
  buf : List Int
  start_time : Time
deriving DecidableEq, Repr

/-- `AudioSnippetData::new`. -/
def AudioSnippetData.new (buf : List Int) (start_time : Time) : AudioSnippetData :=
  ⟨buf, start_time⟩

/-- `AudioSnippetsData`: a `BTreeMap<AudioSnippetId, AudioSnippetData>` (modelled
as an association list sorted by key, which is how a `BTreeMap` iterates) plus
the last assigned id. -/
structure AudioSnippetsData where
  last_id : Nat
  snippets : List (Nat × AudioSnippetData)
deriving DecidableEq, Repr

/-- `AudioSnippetsData::default()`: empty map, `last_id = 0`. -/
def AudioSnippetsData.default' : AudioSnippetsData := ⟨0, []⟩

/-- Key-ordered insertion, the model of `BTreeMap::insert` on the association
list (replaces an equal key, otherwise keeps ascending key order). -/
def btreeInsert (k : Nat) (v : AudioSnippetData) :
    List (Nat × AudioSnippetData) → List (Nat × AudioSnippetData)
  | [] => [(k, v)]
  | (k', v') :: rest =>
    if k < k' then (k, v) :: (k', v') :: rest
    else if k = k' then (k, v) :: rest
    else (k', v') :: btreeInsert k v rest

/-- `AudioSnippetsData::with_new_snippet`: clone, bump `last_id`, insert the new
snippet under the fresh id. -/
def AudioSnippetsData.with_new_snippet (d : AudioSnippetsData) (snip : AudioSnippetData) :
    AudioSnippetsData :=
  { last_id := d.last_id + 1,
    snippets := btreeInsert (d.last_id + 1) snip d.snippets }

/-- `AudioSnippetsData::snippet`: map lookup.  The Rust code unwraps (panics) on a
missing id; the model returns an empty snippet in that unreachable case. -/
def AudioSnippetsData.snippet (d : AudioSnippetsData) (id : Nat) : AudioSnippetData :=
  (d.snippets.lookup id).getD ⟨[], Time.from_micros 0⟩

/-- `Buf`: a read-only window over one snippet's samples — the stored slice
`inner`, the count `offset` of implicit leading zeros, the logical length `len`
and the direction sign. -/
structure Buf where
  inner : List Int
  offset : Nat
  len : Nat
  direction : Int
deriving DecidableEq, Repr

/-- `Buf::nonzero_start`. -/
def Buf.nonzero_start (b : Buf) : Nat := b.offset

/-- `Buf::nonzero_end`. -/
def Buf.nonzero_end (b : Buf) : Nat := b.offset + b.inner.length

/-- The unsigned index the `Index` implementation reads from: forward, the index
itself (`idx as usize`); backward, `len.checked_sub((idx - 1).abs() as usize)`,
with a failed `checked_sub` giving `usize::MAX`. -/
def Buf.actualIdx (b : Buf) (idx : Int) : Nat :=
  if 0 < b.direction then idx.toNat
  else if (1 - idx).toNat ≤ b.len then b.len - (1 - idx).toNat else usizeMax

/-- The sample stored at an unsigned index: `0` before `offset`, `inner` content
in `[offset, offset + inner.len)`, `0` past the end (`get(..).unwrap_or(&0)`). -/
def Buf.valueAt (b : Buf) (a : Nat) : Int :=
  if a < b.offset then 0 else b.inner.getD (a - b.offset) 0

/-- The sign contract the indexing operator asserts: a nonnegative index on a
forward view, a nonpositive one otherwise. -/
def Buf.signOk (b : Buf) (idx : Int) : Prop :=
  if 0 < b.direction then 0 ≤ idx else idx ≤ 0

instance (b : Buf) (idx : Int) : Decidable (b.signOk idx) := by
  unfold Buf.signOk; infer_instance

/-- `impl Index<isize> for Buf`, with the `assert!` modelled as `none`: signed
indexing that panics on a sign/direction mismatch and otherwise yields the
stored sample, or `0` out of bounds in either direction. -/
def Buf.index? (b : Buf) (idx : Int) : Option Int :=
  if b.signOk idx then some (b.valueAt (b.actualIdx idx)) else none

/-- The value the indexing operator returns whenever its sign assertion passes
(every call site inside `mix_to_buffer` satisfies the assertion, so this is the
value used by the mixing path). -/
def Buf.indexU (b : Buf) (idx : Int) : Int := b.valueAt (b.actualIdx idx)

/-- `Buf::interpolated_index`: linear interpolation between the two adjacent
integer indices of a fractional index, cast back to `i16`. -/
def Buf.interpolated_index (b : Buf) (idx : ℚ) : Int :=
  let idx0 : Int := ⌊idx⌋
  let idx1 : Int := ⌈idx⌉
  let weight : ℚ := idx - (⌊idx⌋ : ℚ)
  f64AsI16 ((b.indexU idx0 : ℚ) * (1 - weight) + (b.indexU idx1 : ℚ) * weight)

/-- `CursorBuffer`: one snippet's id, its signed start offset relative to the
session origin, and its length. -/
structure CursorBuffer where
  id : Nat
  start : Int
  len : Int
deriving DecidableEq, Repr

/-- `CursorBuffer::new`. -/
def CursorBuffer.new (id : Nat) (snip : AudioSnippetData) (time : Time) (sample_rate : Nat) :
    CursorBuffer :=
  { id := id,
    start := (Time.sub time snip.start_time).as_audio_idx sample_rate,
    len := (snip.buf.length : Int) }

/-- `CursorBuffer::is_active`. -/
def CursorBuffer.is_active (c : CursorBuffer) (from_ amount : Int) : Bool :=
  if 0 < amount then 0 < c.start + from_ + amount else c.start + from_ + amount < c.len

/-- `CursorBuffer::is_finished`. -/
def CursorBuffer.is_finished (c : CursorBuffer) (idx direction : Int) : Bool :=
  if 0 ≤ direction then c.len ≤ c.start + idx else c.start + idx < 0

/-- `CursorBuffer::is_started`. -/
def CursorBuffer.is_started (c : CursorBuffer) (idx direction : Int) : Bool :=
  if 0 ≤ direction then 0 ≤ c.start + idx else c.start + idx < c.len

/-- `CursorBuffer::get_buf`: the window `[from, from+amount)` (or its reverse for
negative `amount`) over the snippet, clipped to the stored samples, with the
leading clip recorded in `offset`.  `(end as usize)` is a sign-reinterpreting
cast, hence the `% 2^64`. -/
def CursorBuffer.get_buf (c : CursorBuffer) (data : AudioSnippetsData) (from_ amount : Int) :
    Buf :=
  let snip := data.snippet c.id
  let se : Int × Int :=
    if 0 < amount then (c.start + from_, c.start + from_ + amount)
    else (c.start + from_ + amount, c.start + from_)
  let offset : Nat := (-se.1).toNat
  let start : Nat := se.1.toNat
  let stop : Nat := min (se.2 % (usizeSize : Int)).toNat snip.buf.length
  { inner := (snip.buf.take stop).drop start,
    offset := offset,
    len := amount.natAbs,
    direction := amount.sign }

/-- `Cursor`: the aggregate mixing state. -/
structure Cursor where
  cur_idx : Int
  all_cursors : List CursorBuffer
  next_cursor : Nat
  active_cursors : List CursorBuffer
deriving DecidableEq, Repr

/-- The seeding scan of `Cursor::new`: walk the sorted cursors, collect the
started-but-unfinished ones, and stop at the first not-yet-started one, whose
index becomes `next_cursor` (the list length if the scan never stops). -/
def seedActive (direction : Int) : List CursorBuffer → List CursorBuffer × Nat
  | [] => ([], 0)
  | c :: rest =>
    if ¬ c.is_started 0 direction then ([], 0)
    else
      let ra := seedActive direction rest
      ((if ¬ c.is_finished 0 direction then [c] else []) ++ ra.1, ra.2 + 1)

/-- The body of `Cursor::new` after the playback direction has been computed
from the velocity.  The cursors are sorted by a stable sort
(`Vec::sort_by_key`, modelled with the stable `List.insertionSort`): forward by
decreasing `start`, backward by ascending `start - len`. -/
def Cursor.newI (snippets : AudioSnippetsData) (time : Time) (sample_rate : Nat)
    (direction : Int) : Cursor :=
  let cursors := snippets.snippets.map fun p => CursorBuffer.new p.1 p.2 time sample_rate
  let cursors :=
    if direction = 1 then cursors.insertionSort fun a b => -a.start ≤ -b.start
    else cursors.insertionSort fun a b => a.start - a.len ≤ b.start - b.len
  let seeded := seedActive direction cursors
  { cur_idx := 0,
    all_cursors := cursors,
    next_cursor := seeded.2,
    active_cursors := seeded.1 }

/-- `Cursor::new`: the velocity is used only through `velocity.signum() as isize`. -/
def Cursor.new (snippets : AudioSnippetsData) (time : Time) (sample_rate : Nat)
    (velocity : ℚ) : Cursor :=
  Cursor.newI snippets time sample_rate (fsign velocity)

/-- `Cursor::is_finished`. -/
def Cursor.is_finished (c : Cursor) : Bool :=
  c.active_cursors.isEmpty && c.next_cursor == c.all_cursors.length

/-- The signed number of input samples a call consumes:
`(buf.len() as f64 * speed_factor).ceil() as isize`. -/
def inputAmount (bufLen : Nat) (speed_factor : ℚ) : Int :=
  ⌈(bufLen : ℚ) * speed_factor⌉

/-- The activation sweep of `mix_to_buffer`: starting at `next_cursor`, every
consecutive cursor that `is_active` for the requested window is appended to the
active set; the sweep stops at the first inactive one. -/
def Cursor.sweepNew (c : Cursor) (amount : Int) : List CursorBuffer :=
  (c.all_cursors.drop c.next_cursor).takeWhile fun cb => cb.is_active c.cur_idx amount

/-- The active set during a `mix_to_buffer` call: the previous active set plus
the cursors the activation sweep appends. -/
def Cursor.activeAfterSweep (c : Cursor) (amount : Int) : List CursorBuffer :=
  c.active_cursors ++ c.sweepNew amount

/-- The inner mixing loop for one cursor:
`for (out_idx, out_sample) in buf.iter_mut().enumerate() { *out_sample += in_buf.interpolated_index(out_idx as f64 * speed_factor) }`,
with `i` the enumeration index of the head. -/
def addInterp (b : Buf) (speed_factor : ℚ) : Nat → List Int → List Int
  | _, [] => []
  | i, x :: rest =>
    (x + b.interpolated_index ((i : ℚ) * speed_factor)) :: addInterp b speed_factor (i + 1) rest

/-- `Cursor::mix_to_buffer`: activation sweep, accumulate every active cursor's
interpolated window into the output buffer, advance the position, retire the
cursors finished at the new position.  Returns the updated cursor state and the
updated output buffer. -/
def Cursor.mix_to_buffer (c : Cursor) (data : AudioSnippetsData) (buf : List Int)
    (speed_factor : ℚ) : Cursor × List Int :=
  let input_amount := inputAmount buf.length speed_factor
  let direction := fsign speed_factor
  let active := c.activeAfterSweep input_amount
  let out := active.foldl
    (fun b cb => addInterp (cb.get_buf data c.cur_idx input_amount) speed_factor 0 b) buf
  let new_idx := c.cur_idx + input_amount
  ({ cur_idx := new_idx,
     all_cursors := c.all_cursors,
     next_cursor := c.next_cursor + (c.sweepNew input_amount).length,
     active_cursors := active.filter fun cb => ¬ cb.is_finished new_idx direction },
   out)

/-- A sequence of `mix_to_buffer` calls applied to a cursor state (the buffer
contents returned along the way are discarded; only the state evolves). -/
def applyCalls (c : Cursor) : List (AudioSnippetsData × List Int × ℚ) → Cursor
  | [] => c
  | a :: rest => applyCalls (c.mix_to_buffer a.1 a.2.1 a.2.2).1 rest

/-- `const TRUNCATION_LEN: Diff = Diff::from_micros(100_000)`. -/
def TRUNCATION_LEN : Diff := Diff.from_micros 100000

/-- `TRUNCATION_LEN.as_audio_idx(SAMPLE_RATE) as usize` (= 4800 samples). -/
def truncSamples : Nat := (TRUNCATION_LEN.as_audio_idx SAMPLE_RATE).toNat

/-- The RNNoise loop of `process_audio`: `float_buf.chunks_exact(fs)` zipped with
the output chunks, threading the opaque denoiser state `σ`.  The input length is
a multiple of `fs`, so `k = len / fs` frames cover it exactly; each output chunk
is whatever the external `process_frame_mut` writes over the `fs`-sample frame. -/
def denoiseLoop {σ : Type} (den : σ → List ℚ → σ × List ℚ) (fs : Nat) :
    Nat → σ → List ℚ → List ℚ
  | 0, _, _ => []
  | k + 1, st, l =>
    let r := den st (l.take fs)
    r.2 ++ denoiseLoop den fs k r.1 (l.drop fs)

/-- The trim stage of `process_audio`: mute the first `truncSamples` samples
(`buf[i] = 0` for `i < trunc_samples`, which keeps the sample count), truncate
the last `truncSamples` (`buf[..buf_end]`), and convert to float. -/
def processedFloatBuf (buf : List Int) : List ℚ :=
  let muted := List.replicate truncSamples (0 : Int) ++ buf.drop truncSamples
  let buf_end := buf.length - truncSamples
  (muted.take buf_end).map fun x : Int => (x : ℚ)

/-- `process_audio`, parameterized over the external `rnnoise_c` interface: the
frame size `fs` (`rnnoise_c::FRAME_SIZE`), the initial denoiser state `init`
(`DenoiseState::new()`) and the frame transform `den` (`process_frame_mut`).
Bail out with an empty buffer if the input is no longer than `2 * truncSamples`;
otherwise trim (`processedFloatBuf`), zero-pad to a multiple of `fs`, denoise
frame by frame, and cast back to `i16` (the saturating float-to-int `as` cast). -/
def process_audio {σ : Type} (fs : Nat) (init : σ) (den : σ → List ℚ → σ × List ℚ)
    (buf : List Int) : List Int :=
  if buf.length ≤ 2 * truncSamples then []
  else
    let float_buf := processedFloatBuf buf
    let new_size := ((float_buf.length + (fs - 1)) / fs) * fs
    let padded := float_buf ++ List.replicate (new_size - float_buf.length) (0 : ℚ)
    denoiseLoop den fs (new_size / fs) init padded |>.map f64AsI16

/-! ### Integer mirror of the mixing path

`f64` values cannot be evaluated by the kernel through `ℚ`'s normalizing
arithmetic, so for integral speed factors (the only ones the concrete test
scenarios use) we prove `mix_to_buffer` equal to an integer-only mirror and
compute with that. -/

/-- `interpolated_index` at an exactly integral index: the weight is zero, so the
result is just the sample clamped by the `as i16` cast. -/
def interpAtInt (b : Buf) (k : Int) : Int := max (-32768) (min 32767 (b.indexU k))

/-- Integer mirror of `addInterp` for an integral speed factor. -/
def addInterpI (b : Buf) (s : Int) : Nat → List Int → List Int
  | _, [] => []
  | i, x :: rest => (x + interpAtInt b ((i : Int) * s)) :: addInterpI b s (i + 1) rest

/-- Integer mirror of `mix_to_buffer` for an integral speed factor. -/
def Cursor.mixI (c : Cursor) (data : AudioSnippetsData) (buf : List Int) (s : Int) :
    Cursor × List Int :=
  let input_amount : Int := (buf.length : Int) * s
  let direction : Int := if 0 ≤ s then 1 else -1
  let active := c.activeAfterSweep input_amount
  let out := active.foldl
    (fun b cb => addInterpI (cb.get_buf data c.cur_idx input_amount) s 0 b) buf
  let new_idx := c.cur_idx + input_amount
  ({ cur_idx := new_idx,
     all_cursors := c.all_cursors,
     next_cursor := c.next_cursor + (c.sweepNew input_amount).length,
     active_cursors := active.filter fun cb => ¬ cb.is_finished new_idx direction },
   out)

theorem ratTrunc_intCast (a : ℤ) : ratTrunc ((a : ℤ) : ℚ) = a := by
  unfold ratTrunc; split <;> simp

theorem f64AsI16_intCast (a : ℤ) : f64AsI16 ((a : ℤ) : ℚ) = max (-32768) (min 32767 a) := by
  unfold f64AsI16; rw [ratTrunc_intCast]

theorem interp_intCast (b : Buf) (k : ℤ) :
    b.interpolated_index ((k : ℤ) : ℚ) = interpAtInt b k := by
  simp [Buf.interpolated_index, interpAtInt, f64AsI16_intCast]

theorem addInterp_intCast (b : Buf) (s : ℤ) (l : List Int) (i : Nat) :
    addInterp b ((s : ℤ) : ℚ) i l = addInterpI b s i l := by
  induction l generalizing i with
  | nil => rfl
  | cons x rest ih =>
    rw [addInterp, addInterpI, ih]
    rw [show ((i : ℚ) * ((s : ℤ) : ℚ)) = (((i : Int) * s : ℤ) : ℚ) by push_cast; ring]
    rw [interp_intCast]

theorem fsign_intCast (s : ℤ) : fsign ((s : ℤ) : ℚ) = if 0 ≤ s then 1 else -1 := by
  unfold fsign; rw [Rat.num_intCast]

theorem inputAmount_intCast (n : Nat) (s : ℤ) :
    inputAmount n ((s : ℤ) : ℚ) = (n : ℤ) * s := by
  unfold inputAmount
  rw [show ((n : ℚ) * ((s : ℤ) : ℚ)) = (((n : ℤ) * s : ℤ) : ℚ) by push_cast; ring]
  rw [Int.ceil_intCast]

theorem mix_intCast (c : Cursor) (data : AudioSnippetsData) (buf : List Int) (s : ℤ) :
    c.mix_to_buffer data buf ((s : ℤ) : ℚ) = c.mixI data buf s := by
  simp only [Cursor.mix_to_buffer, Cursor.mixI, inputAmount_intCast, fsign_intCast,
    addInterp_intCast]

/-! ### Helper lemmas -/

theorem valueAt_out (b : Buf) (a : Nat)
    (h : a < b.nonzero_start ∨ b.nonzero_end ≤ a) : b.valueAt a = 0 := by
  unfold Buf.valueAt
  split
  · rfl
  · next hlt =>
    apply List.getD_eq_default
    unfold Buf.nonzero_start Buf.nonzero_end at h
    omega

theorem f64AsI16_zero : f64AsI16 0 = 0 := by
  unfold f64AsI16 ratTrunc
  norm_num

theorem lookup_btreeInsert_self (k : Nat) (v : AudioSnippetData)
    (l : List (Nat × AudioSnippetData)) : (btreeInsert k v l).lookup k = some v := by
  induction l with
  | nil => simp [btreeInsert, List.lookup]
  | cons p rest ih =>
    obtain ⟨k', v'⟩ := p
    unfold btreeInsert
    split
    · simp [List.lookup]
    · split
      · simp [List.lookup]
      · next h1 h2 =>
        have hne : (k == k') = false := by simp; omega
        simp [List.lookup, hne, ih]

theorem lookup_btreeInsert_ne (k k' : Nat) (h : k' ≠ k) (v : AudioSnippetData)
    (l : List (Nat × AudioSnippetData)) :
    (btreeInsert k v l).lookup k' = l.lookup k' := by
  have hne : (k' == k) = false := by simp [h]
  induction l with
  | nil => simp [btreeInsert, List.lookup, hne]
  | cons p rest ih =>
    obtain ⟨k0, v0⟩ := p
    unfold btreeInsert
    split
    · simp [List.lookup, hne]
    · split
      · next _ he =>
        subst he
        simp [List.lookup, hne]
      · simp [List.lookup, ih]

theorem lookup_mem {l : List (Nat × AudioSnippetData)} {k : Nat} {v : AudioSnippetData}
    (h : l.lookup k = some v) : (k, v) ∈ l := by
  induction l with
  | nil => simp [List.lookup] at h
  | cons p rest ih =>
    obtain ⟨k', v'⟩ := p
    by_cases hk : k' = k
    · subst hk
      simp [List.lookup] at h
      simp [h]
    · have hne : (k == k') = false := by simp; exact fun hh => hk hh.symm
      simp [List.lookup, hne] at h
      exact List.mem_cons_of_mem _ (ih h)

/-! ### Claims C3, C6, C8 -/

/-- C3 counterexample: for the per-snippet cursor with `start = 0`, `len = 1` and
the window `from = 5`, `amount = 1`, `is_active` returns `true` although the
half-open window `[5, 6)` does not intersect the valid range `[-start, len - start) = [0, 1)`. -/
theorem is_active_not_intersection :
    (CursorBuffer.mk 1 0 1).is_active 5 1 = true ∧
      ¬ ∃ x : Int, (5 ≤ x ∧ x < 5 + 1) ∧
        (-(CursorBuffer.mk 1 0 1).start ≤ x ∧ x < (CursorBuffer.mk 1 0 1).len
          - (CursorBuffer.mk 1 0 1).start) := by
  constructor
  · decide
  · rintro ⟨x, ⟨h1, h2⟩, h3, h4⟩
    simp only [CursorBuffer.mk] at h3 h4
    omega

/-- C3 (amended): `is_active(from, amount)` tests only the boundary of the valid
range that lies in the direction of travel: for `amount > 0` it is true iff the
window `[from, from+amount)` intersects the half-line `[-start, ∞)`, and for
`amount ≤ 0` it is true iff `from + amount < len - start` (for `amount < 0`,
iff the traversed window `[from+amount, from)` intersects `(-∞, len - start)`). -/
theorem is_active_iff (c : CursorBuffer) (from_ amount : Int) :
    c.is_active from_ amount = true ↔
      ((0 < amount ∧ ∃ x : Int, (from_ ≤ x ∧ x < from_ + amount) ∧ -c.start ≤ x) ∨
       (amount ≤ 0 ∧ from_ + amount < c.len - c.start)) := by
  unfold CursorBuffer.is_active
  by_cases h : 0 < amount
  · rw [if_pos h]
    simp only [decide_eq_true_eq]
    constructor
    · intro hx
      exact Or.inl ⟨h, ⟨from_ + amount - 1, ⟨by omega, by omega⟩, by omega⟩⟩
    · rintro (⟨-, x, ⟨h1, h2⟩, h3⟩ | ⟨h0, -⟩) <;> omega
  · rw [if_neg h]
    simp only [decide_eq_true_eq]
    constructor
    · intro hx
      exact Or.inr ⟨by omega, by omega⟩
    · rintro (⟨h0, -⟩ | ⟨-, h2⟩) <;> omega

/-- C3 amended-claim witness at a concrete input. -/
theorem is_active_iff_witness :
    (CursorBuffer.mk 1 0 1).is_active 5 1 = true ↔
      ((0 < (1 : Int) ∧ ∃ x : Int, ((5 : Int) ≤ x ∧ x < 5 + 1) ∧
          -(CursorBuffer.mk 1 0 1).start ≤ x) ∨
       ((1 : Int) ≤ 0 ∧ (5 : Int) + 1 < (CursorBuffer.mk 1 0 1).len
          - (CursorBuffer.mk 1 0 1).start)) :=
  is_active_iff (CursorBuffer.mk 1 0 1) 5 1

/-- C6: indexing a sample buffer view with a sign-matching index is total (it
returns a value, never a fault), any in-sign index outside the stored sample
range `[nonzero_start, nonzero_end)` — in either direction — yields `0`, a
fractional lookup whose two integer endpoints both fall outside the stored
range yields `0`, and a sign-mismatched index is a panic (`none`). -/
theorem buf_index_spec (b : Buf) (idx : Int) :
    (b.signOk idx → b.index? idx = some (b.valueAt (b.actualIdx idx)))
    ∧ (b.signOk idx →
        (b.actualIdx idx < b.nonzero_start ∨ b.nonzero_end ≤ b.actualIdx idx) →
        b.index? idx = some 0)
    ∧ (¬ b.signOk idx → b.index? idx = none)
    ∧ (∀ q : ℚ,
        (b.actualIdx ⌊q⌋ < b.nonzero_start ∨ b.nonzero_end ≤ b.actualIdx ⌊q⌋) →
        (b.actualIdx ⌈q⌉ < b.nonzero_start ∨ b.nonzero_end ≤ b.actualIdx ⌈q⌉) →
        b.interpolated_index q = 0) := by
  refine ⟨?_, ?_, ?_, ?_⟩
  · intro hs
    unfold Buf.index?
    rw [if_pos hs]
  · intro hs hout
    unfold Buf.index?
    rw [if_pos hs, valueAt_out b _ hout]
  · intro hs
    unfold Buf.index?
    rw [if_neg hs]
  · intro q h1 h2
    simp only [Buf.interpolated_index, Buf.indexU]
    rw [valueAt_out b _ h1, valueAt_out b _ h2]
    simpa using f64AsI16_zero

/-- C6 witness: a concrete forward view (one stored sample `7` behind one
implicit zero) where index `0` is in-sign but out of stored range and yields
`some 0`, while index `-1` is sign-mismatched and panics. -/
theorem buf_index_spec_witness :
    (Buf.mk [7] 1 4 1).signOk 0
    ∧ ((Buf.mk [7] 1 4 1).actualIdx 0 < (Buf.mk [7] 1 4 1).nonzero_start ∨
        (Buf.mk [7] 1 4 1).nonzero_end ≤ (Buf.mk [7] 1 4 1).actualIdx 0)
    ∧ (Buf.mk [7] 1 4 1).index? 0 = some 0
    ∧ ¬ (Buf.mk [7] 1 4 1).signOk (-1)
    ∧ (Buf.mk [7] 1 4 1).index? (-1) = none :=
  ⟨by decide, Or.inl (by decide),
    (buf_index_spec (Buf.mk [7] 1 4 1) 0).2.1 (by decide) (Or.inl (by decide)),
    by decide,
    (buf_index_spec (Buf.mk [7] 1 4 1) (-1)).2.2.1 (by decide)⟩

/-- C8: `with_new_snippet` stores the new snippet under `last_id + 1` and every
id of the old catalog still looks up the same snippet.  (The model is a pure
function: the argument catalog value is returned unmodified by construction, so
the no-mutation part of the claim is inherent.)  The hypothesis is the
reachable-state invariant that all existing ids were allocated by the counter. -/
theorem with_new_snippet_spec (d : AudioSnippetsData) (snip : AudioSnippetData)
    (hk : ∀ p ∈ d.snippets, p.1 ≤ d.last_id) :
    (d.with_new_snippet snip).last_id = d.last_id + 1
    ∧ (d.with_new_snippet snip).snippets.lookup (d.last_id + 1) = some snip
    ∧ ∀ k v, d.snippets.lookup k = some v →
        (d.with_new_snippet snip).snippets.lookup k = some v := by
  refine ⟨rfl, lookup_btreeInsert_self _ _ _, ?_⟩
  intro k v hkv
  have hmem := lookup_mem hkv
  have hle : k ≤ d.last_id := hk _ hmem
  unfold AudioSnippetsData.with_new_snippet
  rw [lookup_btreeInsert_ne _ _ (by omega) _ _]
  exact hkv

/-- C8 witness at a concrete one-entry catalog. -/
theorem with_new_snippet_spec_witness :
    (∀ p ∈ (AudioSnippetsData.mk 1 [(1, AudioSnippetData.new [5] 0)]).snippets,
        p.1 ≤ (AudioSnippetsData.mk 1 [(1, AudioSnippetData.new [5] 0)]).last_id)
    ∧ ((AudioSnippetsData.mk 1 [(1, AudioSnippetData.new [5] 0)]).with_new_snippet
        (AudioSnippetData.new [9] 3)).last_id = 2
    ∧ ((AudioSnippetsData.mk 1 [(1, AudioSnippetData.new [5] 0)]).with_new_snippet
        (AudioSnippetData.new [9] 3)).snippets.lookup 2 = some (AudioSnippetData.new [9] 3)
    ∧ ∀ k v, (AudioSnippetsData.mk 1 [(1, AudioSnippetData.new [5] 0)]).snippets.lookup k
          = some v →
        ((AudioSnippetsData.mk 1 [(1, AudioSnippetData.new [5] 0)]).with_new_snippet
          (AudioSnippetData.new [9] 3)).snippets.lookup k = some v := by
  have h := with_new_snippet_spec (AudioSnippetsData.mk 1 [(1, AudioSnippetData.new [5] 0)])
    (AudioSnippetData.new [9] 3) (by decide)
  exact ⟨by decide, h.1, h.2.1, h.2.2⟩

/-! ### Claims C7, C9: process_audio -/

theorem denoiseLoop_length {σ : Type} (den : σ → List ℚ → σ × List ℚ) (fs : Nat)
    (hden : ∀ st c, c.length = fs → ((den st c).2).length = fs) :
    ∀ (k : Nat) (st : σ) (l : List ℚ), l.length = k * fs →
      (denoiseLoop den fs k st l).length = k * fs := by
  intro k
  induction k with
  | zero => intro st l hl; simp [denoiseLoop]
  | succ k ih =>
    intro st l hl
    have hsm : (k + 1) * fs = k * fs + fs := Nat.succ_mul k fs
    have h1 : (l.take fs).length = fs := by
      rw [List.length_take]; omega
    have h3 : (l.drop fs).length = k * fs := by
      rw [List.length_drop]; omega
    simp only [denoiseLoop, List.length_append]
    rw [hden st (l.take fs) h1, ih _ _ h3]
    omega

theorem ceilMulGe (fs x : Nat) (hfs : 0 < fs) : x ≤ ((x + (fs - 1)) / fs) * fs := by
  have h1 := Nat.div_add_mod (x + (fs - 1)) fs
  have h2 : (x + (fs - 1)) % fs < fs := Nat.mod_lt _ hfs
  rw [mul_comm]
  omega

theorem processedFloatBuf_length (buf : List Int) (h : truncSamples ≤ buf.length) :
    (processedFloatBuf buf).length = buf.length - truncSamples := by
  unfold processedFloatBuf
  rw [List.length_map, List.length_take, List.length_append, List.length_replicate,
    List.length_drop]
  omega

theorem process_audio_length {σ : Type} (fs : Nat) (hfs : 0 < fs) (init : σ)
    (den : σ → List ℚ → σ × List ℚ)
    (hden : ∀ st c, c.length = fs → ((den st c).2).length = fs)
    (buf : List Int) (h : 2 * truncSamples < buf.length) :
    (process_audio fs init den buf).length
      = ((buf.length - truncSamples + (fs - 1)) / fs) * fs := by
  unfold process_audio
  rw [if_neg (by omega)]
  simp only [List.length_map]
  have hge := ceilMulGe fs ((processedFloatBuf buf).length) hfs
  have hq : ((processedFloatBuf buf).length + (fs - 1)) / fs * fs / fs
      = ((processedFloatBuf buf).length + (fs - 1)) / fs := Nat.mul_div_cancel _ hfs
  rw [hq]
  rw [denoiseLoop_length den fs hden _ _ _ (by
    simp only [List.length_append, List.length_replicate]
    omega)]
  rw [processedFloatBuf_length buf (by omega)]

/-- C7 counterexample: at an input of 9601 samples the buffer remaining after
the trailing truncation (4801 samples) is not longer than twice the truncation
length (9600 samples), yet `process_audio` does not return an empty buffer —
the code's early exit tests the *untruncated* length against `2 * truncSamples`. -/
theorem process_audio_empty_counterexample :
    (List.replicate 9601 (1 : Int)).length - truncSamples ≤ 2 * truncSamples
    ∧ process_audio 480 () (fun st c => (st, c)) (List.replicate 9601 (1 : Int)) ≠ [] := by
  have ht : truncSamples = 4800 := by decide
  constructor
  · rw [List.length_replicate, ht]
    norm_num
  · intro hemp
    have hlen := process_audio_length 480 (by norm_num) () (fun st c => (st, c))
      (fun st c hc => hc) (List.replicate 9601 (1 : Int))
      (by rw [List.length_replicate, ht]; norm_num)
    rw [hemp, List.length_replicate, ht] at hlen
    norm_num at hlen

/-- C7 (amended): `process_audio` returns an empty buffer whenever the *input*
is not longer than twice the truncation length — equivalently, whenever the
buffer remaining after the trailing truncation is not longer than one
truncation length.  Past that early exit, the trim stage mutes (zeroes, without
removing) the leading `truncSamples` samples and truncates the trailing
`truncSamples`: it keeps exactly `buf.length - truncSamples` samples, namely
`truncSamples` zeros followed by the original samples from index `truncSamples`
up to `buf.length - truncSamples`. -/
theorem process_audio_spec {σ : Type} (fs : Nat) (init : σ)
    (den : σ → List ℚ → σ × List ℚ) (buf : List Int) :
    (buf.length ≤ 2 * truncSamples → process_audio fs init den buf = [])
    ∧ (2 * truncSamples < buf.length →
        processedFloatBuf buf
          = List.replicate truncSamples (0 : ℚ)
            ++ ((buf.drop truncSamples).take (buf.length - 2 * truncSamples)).map
                (fun x : Int => (x : ℚ))
        ∧ (processedFloatBuf buf).length = buf.length - truncSamples) := by
  constructor
  · intro h
    unfold process_audio
    rw [if_pos h]
  · intro h
    refine ⟨?_, processedFloatBuf_length buf (by omega)⟩
    unfold processedFloatBuf
    simp only [List.take_append_eq_append_take, List.length_replicate]
    rw [show buf.length - truncSamples - truncSamples = buf.length - 2 * truncSamples from by
      omega]
    rw [List.take_replicate, min_eq_right (by omega : truncSamples ≤ buf.length - truncSamples)]
    rw [List.map_append, List.map_replicate, Int.cast_zero]

/-- C7 amended-claim witness: the empty case at a too-short input, the trim
shape at a 9601-sample input. -/
theorem process_audio_spec_witness :
    (([] : List Int).length ≤ 2 * truncSamples
      ∧ process_audio 480 () (fun st c => (st, c)) ([] : List Int) = [])
    ∧ (2 * truncSamples < (List.replicate 9601 (1 : Int)).length
      ∧ processedFloatBuf (List.replicate 9601 (1 : Int))
          = List.replicate truncSamples (0 : ℚ)
            ++ (((List.replicate 9601 (1 : Int)).drop truncSamples).take
                ((List.replicate 9601 (1 : Int)).length - 2 * truncSamples)).map
                (fun x : Int => (x : ℚ))
      ∧ (processedFloatBuf (List.replicate 9601 (1 : Int))).length
          = (List.replicate 9601 (1 : Int)).length - truncSamples) := by
  have ht : truncSamples = 4800 := by decide
  have h1 : ([] : List Int).length ≤ 2 * truncSamples := by simp
  have h2 : 2 * truncSamples < (List.replicate 9601 (1 : Int)).length := by
    rw [List.length_replicate, ht]; norm_num
  have ha := (process_audio_spec 480 () (fun st c => (st, c)) ([] : List Int)).1 h1
  have hb := (process_audio_spec 480 () (fun st c => (st, c))
    (List.replicate 9601 (1 : Int))).2 h2
  exact ⟨⟨h1, ha⟩, h2, hb.1, hb.2⟩

/-- C9: when the input is longer than twice the truncation length, the output
length is the trimmed length `n - truncSamples` rounded up to the next whole
multiple of the denoiser frame size — `((n - t) + (fs - 1)) / fs * fs`, i.e.
`⌈(n - t)/fs⌉ * fs` — hence always a multiple of `fs` and at least `n - t`
(strictly more when `fs` does not divide `n - t`). -/
theorem process_audio_output_length {σ : Type} (fs : Nat) (hfs : 0 < fs) (init : σ)
    (den : σ → List ℚ → σ × List ℚ)
    (hden : ∀ st c, c.length = fs → ((den st c).2).length = fs)
    (buf : List Int) (h : 2 * truncSamples < buf.length) :
    (process_audio fs init den buf).length
      = ((buf.length - truncSamples + (fs - 1)) / fs) * fs
    ∧ fs ∣ (process_audio fs init den buf).length
    ∧ buf.length - truncSamples ≤ (process_audio fs init den buf).length := by
  have hl := process_audio_length fs hfs init den hden buf h
  refine ⟨hl, ?_, ?_⟩
  · rw [hl]
    exact dvd_mul_left fs _
  · rw [hl]
    exact ceilMulGe fs _ hfs

/-- C9 witness: at a 9601-sample input (fs = 480) the output length is 5280, a
multiple of 480 strictly longer than the trimmed length 4801. -/
theorem process_audio_output_length_witness :
    (0 : Nat) < 480
    ∧ 2 * truncSamples < (List.replicate 9601 (1 : Int)).length
    ∧ (process_audio 480 () (fun st c => (st, c)) (List.replicate 9601 (1 : Int))).length
        = (((List.replicate 9601 (1 : Int)).length - truncSamples + (480 - 1)) / 480) * 480
    ∧ 480 ∣ (process_audio 480 () (fun st c => (st, c))
        (List.replicate 9601 (1 : Int))).length
    ∧ (List.replicate 9601 (1 : Int)).length - truncSamples
        < (process_audio 480 () (fun st c => (st, c)) (List.replicate 9601 (1 : Int))).length := by
  have ht : truncSamples = 4800 := by decide
  have h2 : 2 * truncSamples < (List.replicate 9601 (1 : Int)).length := by
    rw [List.length_replicate, ht]; norm_num
  have h := process_audio_output_length 480 (by norm_num) () (fun st c => (st, c))
    (fun st c hc => hc) (List.replicate 9601 (1 : Int)) h2
  refine ⟨by norm_num, h2, h.1, h.2.1, ?_⟩
  rw [h.1, List.length_replicate, ht]
  norm_num

/-! ### Claim C4: mixing accumulates -/

theorem addInterp_length (b : Buf) (s : ℚ) :
    ∀ (l : List Int) (i : Nat), (addInterp b s i l).length = l.length := by
  intro l
  induction l with
  | nil => intro i; rfl
  | cons x rest ih =>
    intro i
    simp [addInterp, ih]

theorem addInterp_getD (b : Buf) (s : ℚ) :
    ∀ (l : List Int) (i j : Nat), j < l.length →
      (addInterp b s i l).getD j 0
        = l.getD j 0 + b.interpolated_index (((i + j : Nat) : ℚ) * s) := by
  intro l
  induction l with
  | nil => intro i j hj; simp at hj
  | cons x rest ih =>
    intro i j hj
    cases j with
    | zero => simp [addInterp]
    | succ j =>
      rw [addInterp, List.getD_cons_succ, List.getD_cons_succ]
      rw [ih (i + 1) j (by simpa using hj)]
      rw [show i + 1 + j = i + (j + 1) from by omega]

theorem mixFold_getD (data : AudioSnippetsData) (speed : ℚ) (cur_idx amount : Int) :
    ∀ (active : List CursorBuffer) (buf : List Int) (j : Nat), j < buf.length →
      (active.foldl
          (fun b cb => addInterp (cb.get_buf data cur_idx amount) speed 0 b) buf).getD j 0
        = buf.getD j 0
          + ((active.map fun cb =>
              (cb.get_buf data cur_idx amount).interpolated_index ((j : ℚ) * speed)).sum) := by
  intro active
  induction active with
  | nil => intro buf j hj; simp
  | cons c rest ih =>
    intro buf j hj
    rw [List.foldl_cons]
    rw [ih _ j (by rw [addInterp_length]; exact hj)]
    rw [addInterp_getD _ _ _ _ _ hj]
    simp only [List.map_cons, List.sum_cons, Nat.zero_add, Nat.cast_zero]
    rw [add_assoc]

/-- C4: each `mix_to_buffer` call only adds into the output buffer, never
overwrites it: the value at every output index `j` after the call is its value
before the call plus the sum, over the cursors active during the call (the
prior active set plus the activation sweep), of the linear interpolation of
that cursor's buffer view at fractional source index `j × speed_factor` —
overlapping snippets combine by plain addition, with no clipping. -/
theorem mix_to_buffer_accumulates (c : Cursor) (data : AudioSnippetsData) (buf : List Int)
    (speed_factor : ℚ) (j : Nat) (hj : j < buf.length) :
    ((c.mix_to_buffer data buf speed_factor).2).getD j 0
      = buf.getD j 0
        + ((c.activeAfterSweep (inputAmount buf.length speed_factor)).map fun cb =>
            (cb.get_buf data c.cur_idx
              (inputAmount buf.length speed_factor)).interpolated_index
              ((j : ℚ) * speed_factor)).sum := by
  unfold Cursor.mix_to_buffer
  exact mixFold_getD data speed_factor c.cur_idx _ _ buf j hj

/-- C4 witness at a concrete mix call. -/
theorem mix_to_buffer_accumulates_witness :
    0 < [(0 : Int)].length
    ∧ (((Cursor.mk 0 [] 0 []).mix_to_buffer AudioSnippetsData.default' [(0 : Int)] 1).2).getD 0 0
        = ([(0 : Int)].getD 0 0)
          + (((Cursor.mk 0 [] 0 []).activeAfterSweep (inputAmount [(0 : Int)].length 1)).map
              fun cb =>
              (cb.get_buf AudioSnippetsData.default' (Cursor.mk 0 [] 0 []).cur_idx
                (inputAmount [(0 : Int)].length 1)).interpolated_index
                ((0 : ℚ) * 1)).sum :=
  ⟨by decide,
    by
      have h := mix_to_buffer_accumulates (Cursor.mk 0 [] 0 []) AudioSnippetsData.default'
        [(0 : Int)] 1 0 (by decide)
      simpa using h⟩

/-! ### Claim C10: cursor over an empty catalog -/

theorem mix_to_buffer_no_cursors (c : Cursor) (h1 : c.all_cursors = [])
    (h2 : c.next_cursor = 0) (h3 : c.active_cursors = [])
    (data : AudioSnippetsData) (buf : List Int) (speed : ℚ) :
    (c.mix_to_buffer data buf speed).2 = buf
    ∧ (c.mix_to_buffer data buf speed).1.cur_idx = c.cur_idx + inputAmount buf.length speed
    ∧ (c.mix_to_buffer data buf speed).1.all_cursors = []
    ∧ (c.mix_to_buffer data buf speed).1.next_cursor = 0
    ∧ (c.mix_to_buffer data buf speed).1.active_cursors = [] := by
  simp [Cursor.mix_to_buffer, Cursor.activeAfterSweep, Cursor.sweepNew, h1, h2, h3]

theorem applyCalls_no_cursors :
    ∀ (calls : List (AudioSnippetsData × List Int × ℚ)) (c : Cursor),
      c.all_cursors = [] → c.next_cursor = 0 → c.active_cursors = [] →
      (applyCalls c calls).all_cursors = [] ∧ (applyCalls c calls).next_cursor = 0
        ∧ (applyCalls c calls).active_cursors = [] := by
  intro calls
  induction calls with
  | nil => intro c h1 h2 h3; exact ⟨h1, h2, h3⟩
  | cons a rest ih =>
    intro c h1 h2 h3
    have hs := mix_to_buffer_no_cursors c h1 h2 h3 a.1 a.2.1 a.2.2
    exact ih _ hs.2.2.1 hs.2.2.2.1 hs.2.2.2.2

/-- C10: a cursor built over a catalog with no snippets is already finished, and
every subsequent `mix_to_buffer` call (after any earlier sequence of calls)
returns the output buffer unchanged while still advancing the position by
`inputAmount` = `ceil(buffer length × speed_factor)`. -/
theorem cursor_new_no_snippets (d : AudioSnippetsData) (hd : d.snippets = [])
    (t : Time) (sample_rate : Nat) (velocity : ℚ) :
    (Cursor.new d t sample_rate velocity).is_finished = true
    ∧ ∀ (calls : List (AudioSnippetsData × List Int × ℚ)) (data : AudioSnippetsData)
        (buf : List Int) (speed : ℚ),
        ((applyCalls (Cursor.new d t sample_rate velocity) calls).mix_to_buffer
            data buf speed).2 = buf
        ∧ ((applyCalls (Cursor.new d t sample_rate velocity) calls).mix_to_buffer
            data buf speed).1.cur_idx
          = (applyCalls (Cursor.new d t sample_rate velocity) calls).cur_idx
            + inputAmount buf.length speed := by
  have hshape : (Cursor.new d t sample_rate velocity).all_cursors = []
      ∧ (Cursor.new d t sample_rate velocity).next_cursor = 0
      ∧ (Cursor.new d t sample_rate velocity).active_cursors = [] := by
    simp [Cursor.new, Cursor.newI, hd, seedActive, List.insertionSort]
  constructor
  · simp [Cursor.is_finished, hshape.1, hshape.2.1, hshape.2.2]
  · intro calls data buf speed
    have ha := applyCalls_no_cursors calls _ hshape.1 hshape.2.1 hshape.2.2
    have hm := mix_to_buffer_no_cursors _ ha.1 ha.2.1 ha.2.2 data buf speed
    exact ⟨hm.1, hm.2.1⟩

/-- C10 witness at the concrete empty catalog. -/
theorem cursor_new_no_snippets_witness :
    AudioSnippetsData.default'.snippets = []
    ∧ (Cursor.new AudioSnippetsData.default' (Time.from_micros 0) 1 1).is_finished = true
    ∧ ((applyCalls (Cursor.new AudioSnippetsData.default' (Time.from_micros 0) 1 1)
          []).mix_to_buffer AudioSnippetsData.default' [(0 : Int)] 1).2 = [(0 : Int)]
    ∧ ((applyCalls (Cursor.new AudioSnippetsData.default' (Time.from_micros 0) 1 1)
          []).mix_to_buffer AudioSnippetsData.default' [(0 : Int)] 1).1.cur_idx
        = (applyCalls (Cursor.new AudioSnippetsData.default' (Time.from_micros 0) 1 1)
            []).cur_idx + inputAmount [(0 : Int)].length 1 := by
  have h := cursor_new_no_snippets AudioSnippetsData.default' rfl (Time.from_micros 0) 1 1
  have h2 := h.2 [] AudioSnippetsData.default' [(0 : Int)] 1
  exact ⟨rfl, h.1, h2.1, h2.2⟩

/-! ### Claim C5: retirement is permanent; is_finished characterization -/

/-- Reachable-state invariant of a `Cursor`: the snippet ids of the sorted
cursor list are distinct (they are the keys of the snippet map), `next_cursor`
never exceeds the list length, and every active cursor comes from the already
consumed prefix `all_cursors.take next_cursor`. -/
def Cursor.Inv (s : Cursor) : Prop :=
  (s.all_cursors.map CursorBuffer.id).Nodup
  ∧ s.next_cursor ≤ s.all_cursors.length
  ∧ ∀ cb ∈ s.active_cursors,
      cb.id ∈ (s.all_cursors.take s.next_cursor).map CursorBuffer.id

theorem mem_take_mono {α : Type} {l : List α} {m n : Nat} (h : m ≤ n) {x : α}
    (hx : x ∈ l.take m) : x ∈ l.take n := by
  have he : l.take m = (l.take n).take m := by
    rw [List.take_take, min_eq_left h]
  rw [he] at hx
  exact List.take_subset _ _ hx

theorem sweepNew_eq_take (s : Cursor) (amt : Int) :
    s.sweepNew amt = (s.all_cursors.drop s.next_cursor).take (s.sweepNew amt).length :=
  List.prefix_iff_eq_take.mp (List.takeWhile_prefix _)

theorem sweepNew_length_le (s : Cursor) (amt : Int) :
    (s.sweepNew amt).length ≤ s.all_cursors.length - s.next_cursor := by
  have h := (List.takeWhile_prefix
    (fun cb => cb.is_active s.cur_idx amt) (l := s.all_cursors.drop s.next_cursor)).length_le
  simpa [Cursor.sweepNew, List.length_drop] using h

theorem mem_sweepNew_take (s : Cursor) (amt : Int) {x : CursorBuffer}
    (hx : x ∈ s.sweepNew amt) :
    x ∈ s.all_cursors.take (s.next_cursor + (s.sweepNew amt).length) := by
  rw [List.take_add]
  refine List.mem_append.mpr (Or.inr ?_)
  rw [← sweepNew_eq_take]
  exact hx

theorem id_in_prefix_not_in_sweep (s : Cursor) (amt : Int)
    (hnd : (s.all_cursors.map CursorBuffer.id).Nodup) {i : Nat}
    (hi : i ∈ (s.all_cursors.take s.next_cursor).map CursorBuffer.id) :
    i ∉ (s.sweepNew amt).map CursorBuffer.id := by
  intro hmem
  have hdrop : i ∈ (s.all_cursors.drop s.next_cursor).map CursorBuffer.id := by
    obtain ⟨x, hx, hxid⟩ := List.mem_map.mp hmem
    exact List.mem_map.mpr ⟨x, (List.takeWhile_prefix _).subset hx, hxid⟩
  have hsplit : s.all_cursors.map CursorBuffer.id =
      (s.all_cursors.take s.next_cursor).map CursorBuffer.id
        ++ (s.all_cursors.drop s.next_cursor).map CursorBuffer.id := by
    rw [← List.map_append, List.take_append_drop]
  rw [hsplit] at hnd
  exact (List.nodup_append.mp hnd).2.2 hi hdrop

theorem mix_inv (s : Cursor) (hInv : s.Inv) (data : AudioSnippetsData) (buf : List Int)
    (speed : ℚ) : (s.mix_to_buffer data buf speed).1.Inv := by
  obtain ⟨hnd, hle, hact⟩ := hInv
  have e1 : (s.mix_to_buffer data buf speed).1.all_cursors = s.all_cursors := rfl
  have e2 : (s.mix_to_buffer data buf speed).1.next_cursor
      = s.next_cursor + (s.sweepNew (inputAmount buf.length speed)).length := rfl
  have e3 : (s.mix_to_buffer data buf speed).1.active_cursors
      = (s.activeAfterSweep (inputAmount buf.length speed)).filter
          (fun cb => ¬ cb.is_finished (s.cur_idx + inputAmount buf.length speed)
            (fsign speed)) := rfl
  refine ⟨by rw [e1]; exact hnd, ?_, ?_⟩
  · rw [e1, e2]
    have := sweepNew_length_le s (inputAmount buf.length speed)
    omega
  · intro cb hcb
    rw [e3] at hcb
    have hmem := (List.mem_filter.mp hcb).1
    rw [e1, e2]
    rcases List.mem_append.mp hmem with hold | hnew
    · have hid := hact cb hold
      rw [List.map_take] at hid ⊢
      exact mem_take_mono (Nat.le_add_right _ _) hid
    · exact List.mem_map.mpr ⟨cb, mem_sweepNew_take s _ hnew, rfl⟩

theorem mix_prefix_mono (s : Cursor) (data : AudioSnippetsData) (buf : List Int)
    (speed : ℚ) {i : Nat}
    (hi : i ∈ (s.all_cursors.take s.next_cursor).map CursorBuffer.id) :
    i ∈ ((s.mix_to_buffer data buf speed).1.all_cursors.take
        (s.mix_to_buffer data buf speed).1.next_cursor).map CursorBuffer.id := by
  have e1 : (s.mix_to_buffer data buf speed).1.all_cursors = s.all_cursors := rfl
  have e2 : (s.mix_to_buffer data buf speed).1.next_cursor
      = s.next_cursor + (s.sweepNew (inputAmount buf.length speed)).length := rfl
  rw [e1, e2, List.map_take] at *
  exact mem_take_mono (Nat.le_add_right _ _) hi

theorem mix_not_reactivated (s : Cursor)
    (hnd : (s.all_cursors.map CursorBuffer.id).Nodup) {i : Nat}
    (hi : i ∈ (s.all_cursors.take s.next_cursor).map CursorBuffer.id)
    (hna : i ∉ s.active_cursors.map CursorBuffer.id)
    (data : AudioSnippetsData) (buf : List Int) (speed : ℚ) :
    i ∉ (s.mix_to_buffer data buf speed).1.active_cursors.map CursorBuffer.id := by
  have e3 : (s.mix_to_buffer data buf speed).1.active_cursors
      = (s.activeAfterSweep (inputAmount buf.length speed)).filter
          (fun cb => ¬ cb.is_finished (s.cur_idx + inputAmount buf.length speed)
            (fsign speed)) := rfl
  intro hmem
  rw [e3] at hmem
  obtain ⟨x, hx, hxid⟩ := List.mem_map.mp hmem
  have hx2 := (List.mem_filter.mp hx).1
  rcases List.mem_append.mp hx2 with hold | hnew
  · exact hna (List.mem_map.mpr ⟨x, hold, hxid⟩)
  · exact id_in_prefix_not_in_sweep s _ hnd hi (List.mem_map.mpr ⟨x, hnew, hxid⟩)

theorem not_active_persists :
    ∀ (calls : List (AudioSnippetsData × List Int × ℚ)) (s : Cursor), s.Inv →
      ∀ i : Nat, i ∈ (s.all_cursors.take s.next_cursor).map CursorBuffer.id →
        i ∉ s.active_cursors.map CursorBuffer.id →
        i ∉ (applyCalls s calls).active_cursors.map CursorBuffer.id := by
  intro calls
  induction calls with
  | nil => intro s _ i _ hna; exact hna
  | cons a rest ih =>
    intro s hInv i hi hna
    exact ih _ (mix_inv s hInv a.1 a.2.1 a.2.2)
      i (mix_prefix_mono s a.1 a.2.1 a.2.2 hi)
      (mix_not_reactivated s hInv.1 hi hna a.1 a.2.1 a.2.2)

/-- C5: across any sequence of `mix_to_buffer` calls from a state satisfying the
reachable-state invariant, a per-snippet cursor that was active and is dropped
by a call (its direction-dependent finished condition holds at the updated
position — the `retain` step is the only way to leave the active set) never
re-enters the active set in any later call; and `Cursor::is_finished` is true
iff the active set is empty and `next_cursor` has reached the end of the sorted
cursor list. -/
theorem retirement_permanent_and_is_finished :
    (∀ (s : Cursor), s.Inv →
      ∀ (data : AudioSnippetsData) (buf : List Int) (speed : ℚ) (cb : CursorBuffer),
        cb ∈ s.active_cursors →
        cb.id ∉ (s.mix_to_buffer data buf speed).1.active_cursors.map CursorBuffer.id →
        ∀ (calls : List (AudioSnippetsData × List Int × ℚ)),
          cb.id ∉ (applyCalls (s.mix_to_buffer data buf speed).1
            calls).active_cursors.map CursorBuffer.id)
    ∧ ∀ s : Cursor,
        s.is_finished = true ↔
          s.active_cursors = [] ∧ s.next_cursor = s.all_cursors.length := by
  constructor
  · intro s hInv data buf speed cb hactive hdropped calls
    have hi : cb.id ∈ (s.all_cursors.take s.next_cursor).map CursorBuffer.id :=
      hInv.2.2 cb hactive
    exact not_active_persists calls _ (mix_inv s hInv data buf speed) cb.id
      (mix_prefix_mono s data buf speed hi) hdropped
  · intro s
    simp [Cursor.is_finished, List.isEmpty_iff]

/-- C5 witness: a one-snippet cursor that is retired by the first call (its
window is exhausted at the new position) and stays out of the active set. -/
theorem retirement_permanent_witness :
    (Cursor.mk 0 [CursorBuffer.mk 1 0 1] 1 [CursorBuffer.mk 1 0 1]).Inv
    ∧ CursorBuffer.mk 1 0 1
        ∈ (Cursor.mk 0 [CursorBuffer.mk 1 0 1] 1 [CursorBuffer.mk 1 0 1]).active_cursors
    ∧ (CursorBuffer.mk 1 0 1).id ∉
        (((Cursor.mk 0 [CursorBuffer.mk 1 0 1] 1 [CursorBuffer.mk 1 0 1]).mix_to_buffer
          (AudioSnippetsData.mk 1 [(1, AudioSnippetData.new [5] (Time.from_micros 0))])
          [(0 : Int)] 1).1.active_cursors.map CursorBuffer.id)
    ∧ (CursorBuffer.mk 1 0 1).id ∉
        ((applyCalls ((Cursor.mk 0 [CursorBuffer.mk 1 0 1] 1
            [CursorBuffer.mk 1 0 1]).mix_to_buffer
          (AudioSnippetsData.mk 1 [(1, AudioSnippetData.new [5] (Time.from_micros 0))])
          [(0 : Int)] 1).1 []).active_cursors.map CursorBuffer.id)
    ∧ ((Cursor.mk 7 [] 0 []).is_finished = true ↔
        (Cursor.mk 7 [] 0 []).active_cursors = []
          ∧ (Cursor.mk 7 [] 0 []).next_cursor = (Cursor.mk 7 [] 0 []).all_cursors.length) := by
  have hInv : (Cursor.mk 0 [CursorBuffer.mk 1 0 1] 1 [CursorBuffer.mk 1 0 1]).Inv := by
    refine ⟨by decide, by decide, ?_⟩
    decide
  have hdrop : (CursorBuffer.mk 1 0 1).id ∉
      (((Cursor.mk 0 [CursorBuffer.mk 1 0 1] 1 [CursorBuffer.mk 1 0 1]).mix_to_buffer
        (AudioSnippetsData.mk 1 [(1, AudioSnippetData.new [5] (Time.from_micros 0))])
        [(0 : Int)] 1).1.active_cursors.map CursorBuffer.id) := by
    rw [show (1 : ℚ) = ((1 : ℤ) : ℚ) by norm_num, mix_intCast]
    decide
  exact ⟨hInv, by decide, hdrop,
    retirement_permanent_and_is_finished.1 _ hInv _ _ _ _ (by decide) hdrop [],
    retirement_permanent_and_is_finished.2 _⟩

/-! ### Claims C1, C2: concrete mixing scenarios -/

/-- The catalog of the `multiple_snippets` scenario: `[1,2,3]` at `t = 0` and
`[1,2,3]` at `t = 2` seconds (ids 1 and 2). -/
def snipsMultiple : AudioSnippetsData :=
  (AudioSnippetsData.default'.with_new_snippet
    (AudioSnippetData.new [1, 2, 3] (Time.from_micros 0))).with_new_snippet
    (AudioSnippetData.new [1, 2, 3] (Time.from_micros (2 * 1000000)))

/-- The catalog of the `backwards_1` scenario: `[1,2,3,4,5]` at `t = 2` seconds. -/
def snipsBackwards : AudioSnippetsData :=
  AudioSnippetsData.default'.with_new_snippet
    (AudioSnippetData.new [1, 2, 3, 4, 5] (Time.from_micros (2 * 1000000)))

/-- C1: with snippets `[1,2,3]` at time 0 and `[1,2,3]` at time 2, sample rate 1
and velocity 1.0, a cursor constructed at time 0 fills a 10-sample
zero-initialized output buffer with exactly `[1,2,4,2,3,0,0,0,0,0]` on its
first `mix_to_buffer` call with speed factor 1.0. -/
theorem mix_multiple_snippets :
    ((Cursor.new snipsMultiple (Time.from_micros 0) 1 1).mix_to_buffer snipsMultiple
      (List.replicate 10 0) 1).2 = [1, 2, 4, 2, 3, 0, 0, 0, 0, 0] := by
  rw [show (1 : ℚ) = ((1 : ℤ) : ℚ) by norm_num]
  simp only [Cursor.new, fsign_intCast, mix_intCast]
  decide

/-- C2: with the single snippet `[1,2,3,4,5]` starting at time 2 and sample
rate 1, a cursor constructed at session time 9 with velocity −1.0 fills a
10-sample zero-initialized output buffer with exactly `[0,0,5,4,3,2,1,0,0,0]`
on its first `mix_to_buffer` call with speed factor −1.0. -/
theorem mix_backwards :
    ((Cursor.new snipsBackwards (Time.from_micros (9 * 1000000)) 1 (-1)).mix_to_buffer
      snipsBackwards (List.replicate 10 0) (-1)).2 = [0, 0, 5, 4, 3, 2, 1, 0, 0, 0] := by
  rw [show (-1 : ℚ) = ((-1 : ℤ) : ℚ) by norm_num]
  simp only [Cursor.new, fsign_intCast, mix_intCast]
  decide
